import Mathlib

/-!
Verification development for the MIDI BPM detection engine
(crates `bpm_detection_core` and `midi`).

Shallow embedding conventions:
* `chrono::Duration` values are modelled as `ℤ` (total nanoseconds).  For a
  positive divisor, `chrono`'s component-wise division agrees with floor
  division on total nanoseconds (its nanosecond component is normalised to
  `[0, 10^9)`), which is Lean's `Int` division `/`.
* `f32`/`f64` arithmetic is modelled exactly over `ℚ`.  `.round()` (half away
  from zero in Rust) composed with the saturating `as usize` cast agrees with
  Mathlib's `round` (half up) composed with `Int.toNat` at every input, which
  is how it is modelled.  `as i64` on a non-negative float truncates, `f32`
  NaN/infinity results are modelled with `Option` (`none` = non-finite).
* transcendental routines of external crates (`statrs` Gaussian pdf, `f32`
  `log10`, `powf`) are kept as explicit function parameters (`pdf`, `L`, `P`)
  of the definitions that use them; no theorem below depends on their values
  except through explicitly stated hypotheses.
-/

namespace MidiBpm

/-- Truncation toward zero, the semantics of Rust's float-to-`i64` `as` cast
(for in-range values). -/
def truncQ (q : ℚ) : ℤ := if 0 ≤ q then ⌊q⌋ else ⌈q⌉

/-! ## `bpm.rs`: duration / sample / index conversions -/

/-- Model of `bpm_to_beat_duration(bpm)` = `Duration::from_std(StdDuration::from_secs(60).div(bpm))`
in nanoseconds: `60s / bpm`, rounded to the nearest nanosecond
(exact-arithmetic model of the `f32`/`f64` division path). -/
def bpmToBeatDuration (bpm : ℚ) : ℤ := round ((60000000000 : ℚ) / bpm)

/-- Model of `beat_duration_to_bpm(d)` = `60_000_000_000.0 / nanos` as `f32`
(exact-arithmetic model; a zero duration gives `inf` in Rust, `0` here —
all uses below have positive durations). -/
def beatDurationToBpm (nanos : ℤ) : ℚ := (60000000000 : ℚ) / (nanos : ℚ)

/-- Model of `duration_to_sample(sample_rate, duration)` =
`(nanos as f64 * rate / 1e9).round() as usize`. -/
def durationToSample (sampleRate : ℕ) (nanos : ℤ) : ℕ :=
  (round ((nanos : ℚ) * (sampleRate : ℚ) / 1000000000)).toNat

/-- Model of `sample_to_duration(sample_rate, sample)`: seconds `sample / rate`,
then `(secs * 1e9) as i64` (truncation). -/
def sampleToDuration (sampleRate : ℕ) (sample : ℕ) : ℤ :=
  truncQ ((sample : ℚ) / (sampleRate : ℚ) * 1000000000)

/-- Configuration `NormalDistributionConfig` (the `midi` crate names the third field
`imprecision`; `bpm_detection_core` names it `cutoff` — same quantity,
milliseconds). -/
structure NormalDistributionConfig where
  stdDev : ℚ
  factor : ℚ
  cutoff : ℚ
  resolution : ℚ
deriving DecidableEq

/-- Configuration `StaticBPMDetectionConfig { bpm_center: f32, bpm_range: u16, sample_rate: u16,
normal_distribution }`. -/
structure StaticBPMDetectionConfig where
  bpmCenter : ℚ
  bpmRange : ℕ
  sampleRate : ℕ
  normalDistribution : NormalDistributionConfig
deriving DecidableEq

/-- Model of `lowest_bpm()` = `(bpm_center - f32::from(bpm_range / 2)).max(1.0)`
(`bpm_range / 2` is truncating `u16` division). -/
def lowestBpm (cfg : StaticBPMDetectionConfig) : ℚ :=
  max (cfg.bpmCenter - ((cfg.bpmRange / 2 : ℕ) : ℚ)) 1

/-- Model of `highest_bpm()` = `lowest_bpm() + f32::from(bpm_range)`. -/
def highestBpm (cfg : StaticBPMDetectionConfig) : ℚ :=
  lowestBpm cfg + (cfg.bpmRange : ℚ)

/-- Model of `duration_to_index(duration, buffer_size)`:
`duration_to_sample(duration).checked_sub(duration_to_sample(beat_duration(highest_bpm)))`,
then `Some` only when the index is below `buffer_size`. -/
def durationToIndex (cfg : StaticBPMDetectionConfig) (nanos : ℤ) (bufferSize : ℕ) :
    Option ℕ :=
  let s := durationToSample cfg.sampleRate nanos
  let b := durationToSample cfg.sampleRate (bpmToBeatDuration (highestBpm cfg))
  if s < b then none
  else if s - b < bufferSize then some (s - b) else none

/-- Model of `index_to_duration(index)` = `sample_to_duration(index) + beat_duration(highest_bpm)`. -/
def indexToDuration (cfg : StaticBPMDetectionConfig) (index : ℕ) : ℤ :=
  sampleToDuration cfg.sampleRate index + bpmToBeatDuration (highestBpm cfg)

/-- Bound of `chrono::Duration`: `|delta| <= i64::MAX` milliseconds. -/
def chronoMaxNanos : ℤ := (2 ^ 63 - 1) * 1000000

/-- Model of `chrono::Duration::checked_sub`: `None` exactly on overflow of the
representable range (not on a negative result). -/
def chronoCheckedSub (a b : ℤ) : Option ℤ :=
  if chronoMaxNanos < a - b ∨ a - b < -chronoMaxNanos then none else some (a - b)

/-- The body of `buffer_size()` on explicit bounds:
`bpm_to_beat_duration(lo).checked_sub(&bpm_to_beat_duration(hi)).map(|d| duration_to_sample(rate, d))`.
The trailing `.expect(..)` panic corresponds to a `none` result. -/
def bufferSizeOf (lo hi : ℚ) (sampleRate : ℕ) : Option ℕ :=
  (chronoCheckedSub (bpmToBeatDuration lo) (bpmToBeatDuration hi)).map
    (durationToSample sampleRate)

/-- Model of `StaticBPMDetectionConfig::buffer_size()` before the `.expect(..)`. -/
def bufferSizeChecked (cfg : StaticBPMDetectionConfig) : Option ℕ :=
  bufferSizeOf (lowestBpm cfg) (highestBpm cfg) cfg.sampleRate

/-! ## `normal_distribution.rs`: the Gaussian kernel table -/

/-- Model of `index_for_duration(duration)` =
`((nanos as f32 + cutoff * 1e6) / (resolution * 1e6)).round() as usize`. -/
def indexForDuration (c : NormalDistributionConfig) (nanos : ℤ) : ℕ :=
  (round (((nanos : ℚ) + c.cutoff * 1000000) / (c.resolution * 1000000))).toNat

/-- Model of `duration_for_index(index)` =
`Duration::nanoseconds((index as f32 * resolution * 1e6 - cutoff * 1e6) as i64)`. -/
def durationForIndex (c : NormalDistributionConfig) (index : ℕ) : ℤ :=
  truncQ ((index : ℚ) * c.resolution * 1000000 - c.cutoff * 1000000)

/-- Model of `size()` = `((2 * cutoff / resolution) + 1).ceil() as usize`. -/
def ndSize (c : NormalDistributionConfig) : ℕ :=
  (⌈2 * c.cutoff / c.resolution + 1⌉).toNat

/-- Model of `make_normal_distribution()`: data point `x` is
`pdf(duration_for_index(x) nanos / 1e6) * factor`, for `x` in `0..size()`.
`pdf` stands for `statrs` `Normal::new(0, std_dev).pdf` (an external `f64`
routine, kept as a parameter). -/
def makeNormalDistribution (pdf : ℚ → ℚ) (c : NormalDistributionConfig) : List ℚ :=
  (List.range (ndSize c)).map (fun x => pdf ((durationForIndex c x : ℚ) / 1000000) * c.factor)

/-- State `NormalDistribution { normal_distribution_data_points, normal_distribution_config }`. -/
structure NormalDistribution where
  table : List ℚ
  cfg : NormalDistributionConfig

/-- Model of `NormalDistribution::new(config)`. -/
def NormalDistribution.ofConfig (pdf : ℚ → ℚ) (c : NormalDistributionConfig) :
    NormalDistribution :=
  { table := makeNormalDistribution pdf c, cfg := c }

/-- Model of `impl Index<Duration> for NormalDistribution`.  Out-of-range indexing
panics in the source; the model totalises it with `0` (no theorem below
relies on the out-of-range case). -/
def ndLookup (nd : NormalDistribution) (nanos : ℤ) : ℚ :=
  nd.table.getD (indexForDuration nd.cfg nanos) 0

/-! ## `parameter` crate: `OnOff` weights -/

/-- Type `OnOff<T>`: an enabled/disabled toggle that keeps its value while off. -/
inductive OnOff (α : Type) where
  | On (v : α)
  | Off (v : α)
deriving DecidableEq

/-- Model of `OnOff::weight()`: the value when on, `0` when off. -/
def OnOff.weight : OnOff ℚ → ℚ
  | .On v => v
  | .Off _ => 0

/-- Parameters `DynamicBPMDetectionParameters` as consumed by `compute_bpm`
(`beats_lookback: u8` plus the ten toggleable weights). -/
structure DynamicBPMDetectionParameters where
  beatsLookback : ℕ
  velocityCurrentNoteWeight : OnOff ℚ
  velocityNoteFromWeight : OnOff ℚ
  ageWeight : OnOff ℚ
  octaveDistanceWeight : OnOff ℚ
  pitchDistanceWeight : OnOff ℚ
  multiplierWeight : OnOff ℚ
  subdivisionWeight : OnOff ℚ
  inBeatRangeWeight : OnOff ℚ
  normalDistributionWeight : OnOff ℚ
  highTempoBias : OnOff ℚ

/-! ## `midi_messages.rs`: notes -/

/-- Note type `TimedMidiNoteOn` = `{ timestamp, MidiNoteOn { channel, note, velocity } }`
(timestamp in nanoseconds, `note`/`velocity`/`channel` are `u8`). -/
structure TimedMidiNoteOn where
  timestamp : ℤ
  channel : ℕ
  note : ℕ
  velocity : ℕ
deriving DecidableEq

/-! ## `bpm_detection.rs`: interval folding -/

/-- The halving loop of `process_combinations` (taken when
`interval > interval_high`), with an explicit structural fuel:
`loop { interval = interval / 2; multiplier = if nan {1} else {multiplier/2};
if interval < interval_high { break } }`.
Returns (final interval, tracker, number of halvings).  The fuel-exhausted
branch is unreachable whenever `fuel ≥ interval.toNat` and `1 ≤ hi` (the
source loop would diverge only for `interval_high ≤ 0`, which cannot occur). -/
def halveGo (hi : ℤ) : ℕ → ℤ → Option ℚ → ℤ × Option ℚ × ℕ
  | fuel, interval, m =>
    let i := interval / 2
    let m' : Option ℚ := some (match m with | none => (1 : ℚ) | some v => v / 2)
    if i < hi then (i, m', 1)
    else
      match fuel with
      | 0 => (i, m', 1)
      | f + 1 =>
        let r := halveGo hi f i m'
        (r.1, r.2.1, r.2.2 + 1)

/-- The doubling loop of `process_combinations` (taken when
`1ms < interval < interval_low`):
`for _ in 0..=8 { interval = interval * 2; subdivision = if nan {1} else {subdivision/2};
if interval > interval_low { break } }` — i.e. at most 9 doublings.
Returns (final interval, tracker, number of doublings). -/
def doubleGo (lo : ℤ) : ℕ → ℤ → Option ℚ → ℤ × Option ℚ × ℕ
  | 0, interval, s => (interval, s, 0)
  | f + 1, interval, s =>
    let i := interval * 2
    let s' : Option ℚ := some (match s with | none => (1 : ℚ) | some v => v / 2)
    if lo < i then (i, s', 1)
    else
      let r := doubleGo lo f i s'
      (r.1, r.2.1, r.2.2 + 1)

/-- Result of the folding block, with the OUTER binding names of
`let (interval, in_range, subdivision, multiplier) = { ... }`.
NaN sentinels are modelled as `none`. -/
structure FoldOut where
  interval : ℤ
  inRange : Option ℚ
  subdivision : Option ℚ
  multiplier : Option ℚ
deriving DecidableEq

/-- The folding block of `process_combinations` (lines 102–131).
Note the block yields the tuple `(interval, in_range, multiplier, subdivision)`
but the `let` binds `(interval, in_range, subdivision, multiplier)`: the
halving tracker (inner `multiplier`) lands in the outer `subdivision`, and
the doubling tracker (inner `subdivision`) lands in the outer `multiplier`.
`lo` is `interval_low` (beat period of `highest_bpm`), `hi` is
`interval_high` (beat period of `lowest_bpm`), in nanoseconds. -/
def foldInterval (lo hi interval0 : ℤ) : FoldOut :=
  if hi < interval0 then
    let r := halveGo hi interval0.toNat interval0 none
    { interval := r.1, inRange := none, subdivision := r.2.1, multiplier := none }
  else if 1000000 < interval0 ∧ interval0 < lo then
    let r := doubleGo lo 9 interval0 none
    let s : Option ℚ := if r.1 < lo then none else r.2.1
    { interval := r.1, inRange := none, subdivision := none, multiplier := s }
  else
    { interval := interval0, inRange := some 1, subdivision := none, multiplier := none }

/-! ## `bpm_detection.rs`: per-pair scoring -/

/-- Model of `u8::abs_diff`. -/
def natAbsDiff (a b : ℕ) : ℕ := max a b - min a b

/-- Feature `pitch_distance`: `1 - min(iv, 12 - iv) / 12` with
`iv = (to.note % 12).abs_diff(from.note % 12)`. -/
def pitchDistance (noteFrom noteTo : ℕ) : ℚ :=
  1 - ((min (natAbsDiff (noteTo % 12) (noteFrom % 12))
        (12 - natAbsDiff (noteTo % 12) (noteFrom % 12)) : ℕ) : ℚ) / 12

/-- Feature `octave_distance`: `1 - (to.note / 12).abs_diff(from.note / 12) / 11`. -/
def octaveDistance (noteFrom noteTo : ℕ) : ℚ :=
  1 - ((natAbsDiff (noteTo / 12) (noteFrom / 12) : ℕ) : ℚ) / 11

/-- Model of `chrono`'s `num_microseconds` on the nanosecond model: floor division by
1000 (the nanosecond component of a `chrono` duration is normalised to
`[0, 10^9)`, so component-wise truncation equals floor on total nanoseconds). -/
def microsOf (nanos : ℤ) : ℤ := nanos / 1000

/-- The `age` feature:
`(maximum_interval - note_age).num_microseconds() as f32 / maximum_interval.num_microseconds() as f32`.
A zero denominator produces `inf`/NaN in `f32`, which the intensity filter
later discards; modelled as `none`. -/
def ageFeature (maxInterval noteAge : ℤ) : Option ℚ :=
  if microsOf maxInterval = 0 then none
  else some ((microsOf (maxInterval - noteAge) : ℚ) / (microsOf maxInterval : ℚ))

/-- The `high_tempo_bias` feature:
`1 - (interval_us - interval_low_us) / (interval_high_us - interval_low_us)`
(microsecond `f32` arithmetic; zero denominator gives a non-finite value,
modelled as `none`). -/
def highTempoBiasFeature (iLow iHigh interval : ℤ) : Option ℚ :=
  if microsOf iHigh - microsOf iLow = 0 then none
  else some (1 - ((microsOf interval : ℚ) - (microsOf iLow : ℚ)) /
    ((microsOf iHigh : ℚ) - (microsOf iLow : ℚ)))

/-- One scoring term `(c * 9.0 + 1.0).log10() * w` of the intensity sum.
`L` stands for `f32::log10`.  `none` = the `f32` result is not finite
(NaN feature, or `log10` of a non-positive argument). -/
def scoreTerm (L : ℚ → ℚ) : Option ℚ × ℚ → Option ℚ
  | (none, _) => none
  | (some c, w) => if 0 < c * 9 + 1 then some (L (c * 9 + 1) * w) else none

/-- The intensity fold of `process_combinations`:
map to scoring terms, keep only finite strictly positive ones, sum. -/
def intensityCode (L : ℚ → ℚ) (features : List (Option ℚ × ℚ)) : ℚ :=
  (((features.map (scoreTerm L)).filterMap id).filter (fun v => 0 < v)).sum

/-- The spec's wording of the intensity
("`intensity = Σ log10(feature·9+1)·weight` over all (feature,weight) pairs
..., keeping only finite, positive contributions"): every pair contributes
its term when that term is finite and strictly positive, and `0` otherwise.
Stated as a second definition to be compared with `intensityCode`. -/
def intensitySpec (L : ℚ → ℚ) (features : List (Option ℚ × ℚ)) : ℚ :=
  (features.map (fun p =>
    match scoreTerm L p with
    | none => 0
    | some v => if 0 < v then v else 0)).sum

/-- The nine `(feature, weight)` pairs of the intensity array, in source
order. -/
def featurePairs (d : DynamicBPMDetectionParameters) (f : FoldOut)
    (velocityNoteFrom velocityCurrentNote : ℕ) (age bias : Option ℚ)
    (pitch octave : ℚ) : List (Option ℚ × ℚ) :=
  [ (some ((velocityCurrentNote : ℚ) / 127), d.velocityCurrentNoteWeight.weight),
    (some ((velocityNoteFrom : ℚ) / 127), d.velocityNoteFromWeight.weight),
    (age, d.ageWeight.weight),
    (some octave, d.octaveDistanceWeight.weight),
    (some pitch, d.pitchDistanceWeight.weight),
    (f.multiplier, d.multiplierWeight.weight),
    (f.subdivision, d.subdivisionWeight.weight),
    (f.inRange, d.inBeatRangeWeight.weight),
    (bias, d.highTempoBias.weight) ]

/-! ## `bpm_detection.rs`: the estimator -/

/-- State of `BPMDetection`.  `interval_low` is the beat period of
`highest_bpm`, `interval_high` the beat period of `lowest_bpm`. -/
structure BPMDetection where
  intervalHigh : ℤ
  intervalLow : ℤ
  normalDistribution : NormalDistribution
  notes : List TimedMidiNoteOn
  staticBpmDetectionParameters : StaticBPMDetectionConfig
  histogramDataPoints : List ℚ

/-- The Gaussian-spreading `while timestamp <= imprecision` loop, with
structural fuel (adequate fuel is supplied at the call site; the source
loop diverges only for a non-positive step, impossible for a `u16`
sample rate).  `P` stands for `10.0f32.powf`. -/
def spreadGo (L P : ℚ → ℚ) (cfg : StaticBPMDetectionConfig)
    (nd : NormalDistribution) (normalWeight intensity : ℚ) (interval dps imp : ℤ) :
    ℕ → ℤ → List ℚ → List ℚ
  | fuel, t, hist =>
    if t ≤ imp then
      let hist' :=
        match durationToIndex cfg (t + interval) hist.length with
        | some index =>
          let normalValue :=
            if 0 < normalWeight then L (ndLookup nd t * 9 * 2 + 1) * normalWeight
            else 0
          hist.set index (hist.getD index 0 + P (intensity + normalValue))
        | none => hist
      match fuel with
      | 0 => hist'
      | f + 1 => spreadGo L P cfg nd normalWeight intensity interval dps imp f (t + dps) hist'
    else hist

/-- The body of `process_combinations` for one `(note_from, note_to)` pair. -/
def processPair (L P : ℚ → ℚ) (s : BPMDetection) (d : DynamicBPMDetectionParameters)
    (newest maxInterval : ℤ) (hist : List ℚ) (pr : TimedMidiNoteOn × TimedMidiNoteOn) :
    List ℚ :=
  let noteFrom := pr.1
  let noteTo := pr.2
  let noteAge := newest - noteTo.timestamp
  let f := foldInterval s.intervalLow s.intervalHigh (noteTo.timestamp - noteFrom.timestamp)
  if (durationToIndex s.staticBpmDetectionParameters f.interval hist.length).isNone then
    hist
  else
    let intensity := intensityCode L (featurePairs d f noteFrom.velocity noteTo.velocity
      (ageFeature maxInterval noteAge)
      (highTempoBiasFeature s.intervalLow s.intervalHigh f.interval)
      (pitchDistance noteFrom.note noteTo.note)
      (octaveDistance noteFrom.note noteTo.note))
    let imp := truncQ (s.normalDistribution.cfg.cutoff * 1000000)
    let dps := sampleToDuration s.staticBpmDetectionParameters.sampleRate 1
    spreadGo L P s.staticBpmDetectionParameters s.normalDistribution
      d.normalDistributionWeight.weight intensity f.interval dps imp
      ((2 * imp).toNat + 1) (-imp) hist

/-- Model of `itertools::tuple_combinations` on a slice: all ordered 2-combinations,
in lexicographic position order. -/
def pairsOf {α : Type} : List α → List (α × α)
  | [] => []
  | x :: xs => (xs.map (fun y => (x, y))) ++ pairsOf xs

/-- Model of `process_combinations`. -/
def processCombinations (L P : ℚ → ℚ) (s : BPMDetection)
    (newest maxInterval : ℤ) (d : DynamicBPMDetectionParameters) (hist0 : List ℚ) :
    List ℚ :=
  (pairsOf s.notes).foldl (processPair L P s d newest maxInterval) hist0

/-- The fold of `Iterator::max_by`: the running best `(j, y)` is replaced by
the incoming element when the comparison is `Less` or `Equal`, so equal
maxima resolve to the LAST one.  `i` is the position of the incoming
element. -/
def argmaxGo : ℕ → ℕ → ℚ → List ℚ → ℕ
  | _, j, _, [] => j
  | i, j, y, x :: xs => if y ≤ x then argmaxGo (i + 1) i x xs else argmaxGo (i + 1) j y xs

/-- Model of `iter().enumerate().max_by(|a, b| a.1.total_cmp(b.1))` on the histogram:
Rust's `max_by` keeps the LAST of equally-maximal elements.  Histogram
values are plain rationals here, on which `total_cmp` is the linear order. -/
def argmaxLast (l : List ℚ) : Option ℕ :=
  match l with
  | [] => none
  | x :: xs => some (argmaxGo 1 0 x xs)

/-- The pruning loop of `compute_bpm`:
pop the front while `now - front.timestamp > max_note_age`. -/
def pruneLoop (now maxNoteAge : ℤ) : List TimedMidiNoteOn → List TimedMidiNoteOn
  | [] => []
  | n :: rest =>
    if maxNoteAge < now - n.timestamp then pruneLoop now maxNoteAge rest
    else n :: rest

/-- Model of `BPMDetection::compute_bpm`.  Returns the updated state together with the
`Option<(&[f32], f32)>` result. -/
def computeBpm (L P : ℚ → ℚ) (s : BPMDetection) (d : DynamicBPMDetectionParameters) :
    BPMDetection × Option (List ℚ × ℚ) :=
  let hist0 := s.histogramDataPoints.map (fun _ => (0 : ℚ))
  match s.notes with
  | [] => ({ s with histogramDataPoints := hist0 }, none)
  | first :: _ =>
    let now := (s.notes.getLastD first).timestamp
    let oldest := first.timestamp
    let maximumInterval := now - oldest
    let hist1 := processCombinations L P s now maximumInterval d hist0
    match argmaxLast hist1 with
    | none => ({ s with histogramDataPoints := hist1 }, none)
    | some index =>
      let bpm := beatDurationToBpm (indexToDuration s.staticBpmDetectionParameters index)
      let maxNoteAge := bpmToBeatDuration bpm * (d.beatsLookback : ℤ)
      let notes1 := pruneLoop now maxNoteAge s.notes
      ({ s with histogramDataPoints := hist1, notes := notes1 }, some (hist1, bpm))

/-- Model of `BPMDetection::update_static_parameters`.  The `buffer_size()` `.expect`
panic path (`none`) is totalised with `0`; the relevant theorem assumes
`bufferSizeChecked` succeeds. -/
def updateStaticParameters (pdf : ℚ → ℚ) (s : BPMDetection)
    (p : StaticBPMDetectionConfig) : BPMDetection :=
  { s with
    staticBpmDetectionParameters := p
    intervalLow := bpmToBeatDuration (highestBpm p)
    intervalHigh := bpmToBeatDuration (lowestBpm p)
    normalDistribution := NormalDistribution.ofConfig pdf p.normalDistribution
    histogramDataPoints := List.replicate ((bufferSizeChecked p).getD 0) 0 }


/-! ## Concrete instances used by witnesses and counterexamples -/

def exNdc : NormalDistributionConfig := ⟨24, 40, 100, 3 / 5⟩

def exCfg : StaticBPMDetectionConfig := ⟨90, 60, 4, exNdc⟩

def exNote1 : TimedMidiNoteOn := ⟨0, 0, 60, 100⟩

def exNote2 : TimedMidiNoteOn := ⟨500000000, 0, 64, 90⟩

def exNd : NormalDistribution := ⟨[], exNdc⟩

def exState2 : BPMDetection :=
  ⟨bpmToBeatDuration (lowestBpm exCfg), bpmToBeatDuration (highestBpm exCfg), exNd,
    [exNote1, exNote2], exCfg, [5, 7]⟩

def exL : ℚ → ℚ := fun _ => 0

def exP : ℚ → ℚ := fun _ => 1

def exDyn : DynamicBPMDetectionParameters :=
  ⟨8, .Off 0, .Off 0, .Off 0, .Off 0, .Off 0, .Off 0, .Off 0, .Off 0, .Off 0, .Off 0⟩

def exState1 : BPMDetection :=
  ⟨bpmToBeatDuration (lowestBpm exCfg), bpmToBeatDuration (highestBpm exCfg), exNd,
    [exNote1], exCfg, [5, 7]⟩

def exState0 : BPMDetection :=
  ⟨bpmToBeatDuration (lowestBpm exCfg), bpmToBeatDuration (highestBpm exCfg), exNd,
    [], exCfg, [5, 7]⟩

def c5cfg : StaticBPMDetectionConfig := ⟨150, 1, 1, ⟨24, 40, 100, 3/5⟩⟩

def c6pdf : ℚ → ℚ := fun x => 1 / (1 + x ^ 2)

def c6cfg : NormalDistributionConfig := ⟨24, 1, 3 / 2, 1⟩

/-- Timestamp of the newest buffered note (`notes.back()`), `0` for an empty
window. -/
def lastTimestamp (l : List TimedMidiNoteOn) : ℤ :=
  (l.getLast?.elim 0 (fun nt => nt.timestamp))
end MidiBpm

namespace MidiBpm

/-! ## General lemmas about rounding and the conversions -/

theorem roundMono {x y : ℚ} (h : x ≤ y) : round x ≤ round y := by
  rw [round_eq, round_eq]
  exact Int.floor_mono (by linarith)

theorem roundNonneg {x : ℚ} (h : 0 ≤ x) : 0 ≤ round x := by
  have := roundMono h
  simpa using this

theorem one_le_round_iff {x : ℚ} : 1 ≤ round x ↔ 1 / 2 ≤ x := by
  rw [round_eq, Int.le_floor]
  push_cast
  constructor <;> intro h <;> linarith

theorem truncQ_nonneg {x : ℚ} (h : 0 ≤ x) : truncQ x = ⌊x⌋ := by
  simp [truncQ, h]

theorem truncQ_intCast (z : ℤ) : truncQ (z : ℚ) = z := by
  rcases le_or_lt 0 z with h | h
  · rw [truncQ_nonneg (by exact_mod_cast h)]
    exact Int.floor_intCast z
  · simp only [truncQ]
    rw [if_neg (not_le.mpr (by exact_mod_cast h)), Int.ceil_intCast]

theorem lowestBpm_ge_one (cfg : StaticBPMDetectionConfig) : 1 ≤ lowestBpm cfg :=
  le_max_right _ _

theorem highestBpm_ge_one (cfg : StaticBPMDetectionConfig) : 1 ≤ highestBpm cfg := by
  have h := lowestBpm_ge_one cfg
  have : (0 : ℚ) ≤ (cfg.bpmRange : ℚ) := by positivity
  unfold highestBpm
  linarith

theorem bpmToBeatDuration_nonneg {b : ℚ} (h : 0 ≤ b) : 0 ≤ bpmToBeatDuration b := by
  unfold bpmToBeatDuration
  exact roundNonneg (by positivity)

theorem bpmToBeatDuration_le_of_one_le {b : ℚ} (h : 1 ≤ b) :
    bpmToBeatDuration b ≤ 60000000000 := by
  unfold bpmToBeatDuration
  have h1 : (60000000000 : ℚ) / b ≤ 60000000000 := by
    rw [div_le_iff₀ (by linarith)]
    nlinarith
  calc round ((60000000000 : ℚ) / b) ≤ round ((60000000000 : ℚ)) := roundMono h1
    _ = 60000000000 := by
        rw [show ((60000000000 : ℚ)) = ((60000000000 : ℤ) : ℚ) by norm_num, round_intCast]

theorem sampleToDuration_nonneg (rate n : ℕ) : 0 ≤ sampleToDuration rate n := by
  unfold sampleToDuration
  rw [truncQ_nonneg (by positivity)]
  positivity

theorem sampleToDuration_mono (rate : ℕ) {a b : ℕ} (h : a ≤ b) :
    sampleToDuration rate a ≤ sampleToDuration rate b := by
  unfold sampleToDuration
  have ha : (0:ℚ) ≤ (a : ℚ) / (rate : ℚ) * 1000000000 := by positivity
  have hb : (0:ℚ) ≤ (b : ℚ) / (rate : ℚ) * 1000000000 := by positivity
  rw [truncQ_nonneg ha, truncQ_nonneg hb]
  apply Int.floor_mono
  have : (a : ℚ) ≤ (b : ℚ) := by exact_mod_cast h
  rcases Nat.eq_zero_or_pos rate with h0 | h0
  · simp [h0]
  · have : (0:ℚ) < (rate : ℚ) := by exact_mod_cast h0
    gcongr

end MidiBpm

namespace MidiBpm

/-- Claim C4 (confirmed): for every static configuration with a valid sample
rate and every index `i` in `[0, buffer_size)`, the round trip
`duration_to_index(index_to_duration(i), buffer_size)` returns `Some j` with
`|j - i| <= 1` (here `j ∈ {i-1, i}`). -/
theorem duration_index_round_trip (cfg : StaticBPMDetectionConfig) (m i : ℕ)
    (hr1 : 1 ≤ cfg.sampleRate) (hr2 : cfg.sampleRate ≤ 10000)
    (_hm : bufferSizeChecked cfg = some m) (hi : i < m) :
    ∃ j, durationToIndex cfg (indexToDuration cfg i) m = some j ∧ j ≤ i ∧ i ≤ j + 1 := by
  set r := cfg.sampleRate with hr
  have hrq : (0 : ℚ) < (r : ℚ) := by exact_mod_cast Nat.lt_of_lt_of_le Nat.zero_lt_one hr1
  have hrle : (r : ℚ) ≤ 10000 := by exact_mod_cast hr2
  set B : ℤ := bpmToBeatDuration (highestBpm cfg) with hB
  have hBnn : 0 ≤ B := bpmToBeatDuration_nonneg (by linarith [highestBpm_ge_one cfg])
  -- the index-to-duration sample count
  have hstd : sampleToDuration r i = ⌊(i : ℚ) / (r : ℚ) * 1000000000⌋ := by
    unfold sampleToDuration
    exact truncQ_nonneg (by positivity)
  set F : ℤ := ⌊(i : ℚ) / (r : ℚ) * 1000000000⌋ with hF
  have hFle : (F : ℚ) ≤ (i : ℚ) / (r : ℚ) * 1000000000 := Int.floor_le _
  have hFgt : (i : ℚ) / (r : ℚ) * 1000000000 - 1 < (F : ℚ) := Int.sub_one_lt_floor _
  set x : ℚ := (B : ℚ) * (r : ℚ) / 1000000000 with hx
  have hxnn : 0 ≤ x := by positivity
  set R0 : ℤ := round x with hR0
  have hR0nn : 0 ≤ R0 := roundNonneg hxnn
  -- the round-trip sample count
  have harg : ((F + B : ℤ) : ℚ) * (r : ℚ) / 1000000000 =
      x + (F : ℚ) * (r : ℚ) / 1000000000 := by
    push_cast
    ring
  have hub : (F : ℚ) * (r : ℚ) / 1000000000 ≤ (i : ℚ) := by
    rw [div_le_iff₀ (by norm_num)]
    calc (F : ℚ) * (r : ℚ) ≤ ((i : ℚ) / (r : ℚ) * 1000000000) * (r : ℚ) := by
          apply mul_le_mul_of_nonneg_right hFle (by positivity)
      _ = (i : ℚ) * 1000000000 := by field_simp
  have hlb : (i : ℚ) - 1 ≤ (F : ℚ) * (r : ℚ) / 1000000000 := by
    rw [le_div_iff₀ (by norm_num)]
    have h1 : ((i : ℚ) / (r : ℚ) * 1000000000 - 1) * (r : ℚ) ≤ (F : ℚ) * (r : ℚ) :=
      mul_le_mul_of_nonneg_right (le_of_lt hFgt) (by positivity)
    have h2 : ((i : ℚ) / (r : ℚ) * 1000000000 - 1) * (r : ℚ) =
        (i : ℚ) * 1000000000 - (r : ℚ) := by field_simp
    nlinarith
  set sInt : ℤ := round (((F + B : ℤ) : ℚ) * (r : ℚ) / 1000000000) with hsInt
  have hsUb : sInt ≤ R0 + (i : ℤ) := by
    rw [hsInt, harg]
    calc round (x + (F : ℚ) * (r : ℚ) / 1000000000) ≤ round (x + (i : ℚ)) :=
          roundMono (by linarith)
      _ = R0 + (i : ℤ) := by rw [show ((i : ℚ)) = (((i : ℤ)) : ℚ) by push_cast; ring,
          round_add_int]
  have hsLb : R0 + (i : ℤ) - 1 ≤ sInt := by
    rw [hsInt, harg]
    calc R0 + (i : ℤ) - 1 = round (x + ((i : ℤ) - 1 : ℤ)) := by rw [round_add_int, hR0]; ring
      _ ≤ round (x + (F : ℚ) * (r : ℚ) / 1000000000) := by
          apply roundMono
          push_cast
          linarith
  -- assemble
  have hsEq : durationToSample r (sampleToDuration r i + B) = sInt.toNat := by
    rw [hstd, hsInt]
    simp only [durationToSample]
  have hbEq : durationToSample r B = R0.toNat := rfl
  rcases Nat.eq_zero_or_pos i with hi0 | hip
  · -- i = 0 : the floor is exactly 0, no rounding slack
    subst hi0
    have hF0 : F = 0 := by
      rw [hF]
      norm_num
    refine ⟨0, ?_, le_refl 0, by omega⟩
    simp only [durationToIndex, indexToDuration, ← hB, ← hr, hsEq, hbEq]
    have : sInt = R0 := by
      rw [hsInt, hR0, hF0, hx]
      norm_num
    rw [this]
    simp only [lt_irrefl, if_false, Nat.sub_self]
    rw [if_pos (by omega)]
  · -- i ≥ 1
    have h1 : R0.toNat ≤ sInt.toNat := by omega
    refine ⟨sInt.toNat - R0.toNat, ?_, by omega, by omega⟩
    simp only [durationToIndex, indexToDuration, ← hB, ← hr, hsEq, hbEq]
    rw [if_neg (by omega), if_pos (by omega)]



/-- Claim C5 (amended): for bpm bounds at least 1, `buffer_size` always
returns a value (the `checked_sub`/`expect` fatal path fires only on
`chrono` overflow, which these bounds exclude); the value is strictly
positive iff the scaled beat-period difference reaches half a sample
(`(period(lo) - period(hi)) * rate >= 5*10^8` nanoseconds-scale), and it is
`0` — not a fatal error — whenever `lo >= hi`. -/
theorem buffer_size_amended (lo hi : ℚ) (rate : ℕ) (hlo : 1 ≤ lo) (hhi : 1 ≤ hi) :
    ∃ n, bufferSizeOf lo hi rate = some n ∧
      (0 < n ↔ (500000000 : ℚ) ≤
        ((bpmToBeatDuration lo - bpmToBeatDuration hi : ℤ) : ℚ) * (rate : ℚ)) ∧
      (hi ≤ lo → n = 0) := by
  set Dlo := bpmToBeatDuration lo with hDlo
  set Dhi := bpmToBeatDuration hi with hDhi
  have h1 : 0 ≤ Dlo := bpmToBeatDuration_nonneg (by linarith)
  have h2 : 0 ≤ Dhi := bpmToBeatDuration_nonneg (by linarith)
  have h3 : Dlo ≤ 60000000000 := bpmToBeatDuration_le_of_one_le hlo
  have h4 : Dhi ≤ 60000000000 := bpmToBeatDuration_le_of_one_le hhi
  have hM : chronoMaxNanos = 9223372036854775807000000 := by
    unfold chronoMaxNanos
    norm_num
  have hsub : chronoCheckedSub Dlo Dhi = some (Dlo - Dhi) := by
    unfold chronoCheckedSub
    rw [hM, if_neg (by push_neg; omega)]
  refine ⟨durationToSample rate (Dlo - Dhi), ?_, ?_, ?_⟩
  · simp [bufferSizeOf, hsub]
  · unfold durationToSample
    set q : ℚ := ((Dlo - Dhi : ℤ) : ℚ) * (rate : ℚ) / 1000000000 with hq
    constructor
    · intro h
      have : 1 ≤ round q := by omega
      have := one_le_round_iff.mp this
      rw [hq] at this
      have hr : ((Dlo - Dhi : ℤ) : ℚ) * (rate : ℚ) ≥ 500000000 := by linarith
      linarith
    · intro h
      have : 1 / 2 ≤ q := by rw [hq]; linarith
      have := one_le_round_iff.mpr this
      omega
  · intro hle
    have hmono : Dlo ≤ Dhi := by
      rw [hDlo, hDhi]
      unfold bpmToBeatDuration
      apply roundMono
      apply div_le_div_of_nonneg_left (by norm_num) (by linarith) hle
    unfold durationToSample
    have hq0 : ((Dlo - Dhi : ℤ) : ℚ) * (rate : ℚ) / 1000000000 ≤ 0 := by
      have : ((Dlo - Dhi : ℤ) : ℚ) ≤ 0 := by
        have h5 : Dlo - Dhi ≤ 0 := by omega
        exact_mod_cast h5
      have hrn : (0:ℚ) ≤ (rate : ℚ) := by positivity
      have := mul_nonpos_of_nonpos_of_nonneg this hrn
      linarith
    have : round (((Dlo - Dhi : ℤ) : ℚ) * (rate : ℚ) / 1000000000) ≤ 0 := by
      have := roundMono hq0
      simpa using this
    omega

-- C5 counterexample configuration
/-- Counterexample to claim C5 as stated: with `lowest_bpm = 150 <
highest_bpm = 151` and `sample_rate = 1` the buffer size evaluates to `0`
(not strictly positive), and with inverted bounds `lo = 150 > hi = 100` the
computation returns `some 0` (saturating cast) rather than the fatal
`.expect` path. -/
theorem buffer_size_counterexample :
    lowestBpm c5cfg = 150 ∧ highestBpm c5cfg = 151 ∧ c5cfg.sampleRate = 1 ∧
    bufferSizeChecked c5cfg = some 0 ∧ bufferSizeOf 150 100 1 = some 0 := by
  refine ⟨by with_unfolding_all decide, by with_unfolding_all decide, rfl,
    by with_unfolding_all decide, by with_unfolding_all decide⟩

/-- Witness for claim C5 (amended) at `lo = 60`, `hi = 120`, `rate = 4`. -/
theorem buffer_size_witness :
    (1 : ℚ) ≤ 60 ∧ (1 : ℚ) ≤ 120 ∧
    ∃ n, bufferSizeOf 60 120 4 = some n ∧
      (0 < n ↔ (500000000 : ℚ) ≤
        ((bpmToBeatDuration 60 - bpmToBeatDuration 120 : ℤ) : ℚ) * ((4 : ℕ) : ℚ)) ∧
      ((120 : ℚ) ≤ 60 → n = 0) :=
  ⟨by norm_num, by norm_num, buffer_size_amended 60 120 4 (by norm_num) (by norm_num)⟩


-- Shared concrete objects for witnesses / counterexamples
/-- Witness for claim C4 at the default-style configuration
(center 90, range 60, rate 4; buffer size 2) and index 1. -/
theorem duration_index_round_trip_witness :
    1 ≤ exCfg.sampleRate ∧ exCfg.sampleRate ≤ 10000 ∧
    bufferSizeChecked exCfg = some 2 ∧ (1 : ℕ) < 2 ∧
    ∃ j, durationToIndex exCfg (indexToDuration exCfg 1) 2 = some j ∧ j ≤ 1 ∧ 1 ≤ j + 1 :=
  ⟨by decide, by decide, by with_unfolding_all decide, by decide,
    duration_index_round_trip exCfg 2 1 (by decide) (by decide)
      (by with_unfolding_all decide) (by decide)⟩

-- C7 helper: the code's filtered sum equals the spec's per-term sum.
theorem intensity_code_eq_spec_aux (L : ℚ → ℚ) (fs : List (Option ℚ × ℚ)) :
    intensityCode L fs = intensitySpec L fs := by
  induction fs with
  | nil => rfl
  | cons p rest ih =>
    rcases hp : scoreTerm L p with _ | v
    · simp only [intensityCode, intensitySpec, List.map_cons, List.filterMap_cons, hp, id_eq,
        List.sum_cons] at ih ⊢
      exact ih.trans (zero_add _).symm
    · by_cases hv : 0 < v
      · simp only [intensityCode, intensitySpec, List.map_cons, List.filterMap_cons, hp, id_eq,
          List.sum_cons, List.filter_cons] at ih ⊢
        simpa [hv, List.filterMap_map] using ih
      · simp only [intensityCode, intensitySpec, List.map_cons, List.filterMap_cons, hp, id_eq,
          List.sum_cons, List.filter_cons] at ih ⊢
        simpa [hv, List.filterMap_map] using ih

/-- Claim C7 (confirmed): for every note pair scored by `compute_bpm`, the
pair's intensity — the filtered sum `intensityCode` over the nine
`(feature, weight)` pairs drawn from `DynamicWeights` — equals the spec's
formula `Σ log10(feature*9+1)*weight` keeping only finite, strictly positive
terms (`intensitySpec`); a toggled-off weight is `0`; the feature list has
exactly the nine claimed entries. -/
theorem intensity_matches_spec (L : ℚ → ℚ) (d : DynamicBPMDetectionParameters)
    (f : FoldOut) (velocityNoteFrom velocityCurrentNote : ℕ) (age bias : Option ℚ)
    (pitch octave : ℚ) :
    intensityCode L (featurePairs d f velocityNoteFrom velocityCurrentNote age bias pitch octave) =
      intensitySpec L (featurePairs d f velocityNoteFrom velocityCurrentNote age bias pitch octave) ∧
    (∀ v : ℚ, (OnOff.Off v).weight = 0) ∧
    (featurePairs d f velocityNoteFrom velocityCurrentNote age bias pitch octave).length = 9 :=
  ⟨intensity_code_eq_spec_aux L _, fun _ => rfl, rfl⟩

/-- Claim C8 (confirmed): `update_parameters` resizes the histogram to the
new parameters' `buffer_size` clearing its contents to zeros, and leaves the
buffered note window exactly unchanged (and installs the new parameters). -/
theorem update_resizes_histogram_preserves_notes (pdf : ℚ → ℚ) (s : BPMDetection)
    (p : StaticBPMDetectionConfig) (n : ℕ) (h : bufferSizeChecked p = some n) :
    (updateStaticParameters pdf s p).histogramDataPoints = List.replicate n 0 ∧
    (updateStaticParameters pdf s p).notes = s.notes ∧
    (updateStaticParameters pdf s p).staticBpmDetectionParameters = p := by
  refine ⟨?_, rfl, rfl⟩
  simp [updateStaticParameters, h]

/-- Witness for claim C8 at a concrete state and configuration. -/
theorem update_witness :
    bufferSizeChecked exCfg = some 2 ∧
    (updateStaticParameters (fun x => x ^ 2) exState2 exCfg).histogramDataPoints =
      List.replicate 2 0 ∧
    (updateStaticParameters (fun x => x ^ 2) exState2 exCfg).notes = exState2.notes ∧
    (updateStaticParameters (fun x => x ^ 2) exState2 exCfg).staticBpmDetectionParameters =
      exCfg :=
  ⟨by with_unfolding_all decide,
    update_resizes_histogram_preserves_notes (fun x => x ^ 2) exState2 exCfg 2
      (by with_unfolding_all decide)⟩

theorem getD_append_left {l₁ l₂ : List ℚ} {n : ℕ} (h : n < l₁.length) :
    (l₁ ++ l₂).getD n 0 = l₁.getD n 0 := by
  simp [List.getD_eq_getElem?_getD, List.getElem?_append_left h]

theorem getD_append_self {l₁ : List ℚ} {x : ℚ} {l₂ : List ℚ} :
    (l₁ ++ x :: l₂).getD l₁.length 0 = x := by
  simp [List.getD_eq_getElem?_getD, List.getElem?_append_right (le_refl l₁.length)]

theorem argmaxGo_spec (xs : List ℚ) : ∀ (pre : List ℚ) (j : ℕ) (y : ℚ),
    j < pre.length → pre.getD j 0 = y →
    (∀ t, t < pre.length → pre.getD t 0 ≤ y) →
    (∀ t, t < pre.length → j < t → pre.getD t 0 < y) →
    argmaxGo pre.length j y xs < (pre ++ xs).length ∧
    (∀ t, t < (pre ++ xs).length →
      (pre ++ xs).getD t 0 ≤ (pre ++ xs).getD (argmaxGo pre.length j y xs) 0) ∧
    (∀ t, t < (pre ++ xs).length → argmaxGo pre.length j y xs < t →
      (pre ++ xs).getD t 0 < (pre ++ xs).getD (argmaxGo pre.length j y xs) 0) := by
  induction xs with
  | nil =>
    intro pre j y hj hy hle hlt
    simp only [argmaxGo, List.append_nil]
    refine ⟨hj, ?_, ?_⟩
    · intro t ht
      rw [hy]
      exact hle t ht
    · intro t ht hjt
      rw [hy]
      exact hlt t ht hjt
  | cons x rest ih =>
    intro pre j y hj hy hle hlt
    have hkey : pre ++ x :: rest = (pre ++ [x]) ++ rest := by
      simp
    have hlen : (pre ++ [x]).length = pre.length + 1 := by simp
    by_cases hyx : y ≤ x
    · have := ih (pre ++ [x]) pre.length x
        (by simp) (by exact getD_append_self)
        (by
          intro t ht
          rw [hlen] at ht
          rcases Nat.lt_succ_iff_lt_or_eq.mp ht with h | h
          · rw [getD_append_left h]
            exact le_trans (hle t h) hyx
          · subst h
            simp [getD_append_self])
        (by
          intro t ht hlt2
          rw [hlen] at ht
          omega)
      rw [hkey]
      simpa only [argmaxGo, if_pos hyx, hlen] using this
    · have hxy : x < y := lt_of_not_le hyx
      have := ih (pre ++ [x]) j y
        (by simp; omega)
        (by rw [getD_append_left hj]; exact hy)
        (by
          intro t ht
          rw [hlen] at ht
          rcases Nat.lt_succ_iff_lt_or_eq.mp ht with h | h
          · rw [getD_append_left h]
            exact hle t h
          · subst h
            rw [getD_append_self]
            exact le_of_lt hxy)
        (by
          intro t ht hjt
          rw [hlen] at ht
          rcases Nat.lt_succ_iff_lt_or_eq.mp ht with h | h
          · rw [getD_append_left h]
            exact hlt t h hjt
          · subst h
            rw [getD_append_self]
            exact hxy)
      rw [hkey]
      simpa only [argmaxGo, if_neg hyx, hlen] using this

-- Inversion of a successful compute_bpm call, shared by several theorems.
theorem computeBpm_some_inv (L P : ℚ → ℚ) (s : BPMDetection)
    (d : DynamicBPMDetectionParameters) (s' : BPMDetection) (h : List ℚ) (B : ℚ)
    (hc : computeBpm L P s d = (s', some (h, B))) :
    ∃ first rest index,
      s.notes = first :: rest ∧
      h = processCombinations L P s ((s.notes.getLastD first).timestamp)
        ((s.notes.getLastD first).timestamp - first.timestamp) d
        (s.histogramDataPoints.map (fun _ => 0)) ∧
      argmaxLast h = some index ∧
      B = beatDurationToBpm (indexToDuration s.staticBpmDetectionParameters index) ∧
      s' = { s with
        histogramDataPoints := h
        notes := pruneLoop ((s.notes.getLastD first).timestamp)
          (bpmToBeatDuration B * (d.beatsLookback : ℤ)) s.notes } := by
  rcases hn : s.notes with _ | ⟨first, rest⟩
  · simp only [computeBpm, hn] at hc
    simp at hc
  · refine ⟨first, rest, ?_⟩
    simp only [computeBpm, hn] at hc
    rcases hm : argmaxLast (processCombinations L P s ((first :: rest).getLastD first).timestamp
        (((first :: rest).getLastD first).timestamp - first.timestamp) d
        (s.histogramDataPoints.map (fun _ => 0))) with _ | index
    · rw [hm] at hc
      simp at hc
    · rw [hm] at hc
      have h1 := congrArg Prod.fst hc
      have h2 := congrArg Prod.snd hc
      simp only at h1 h2
      have h2' := Option.some.inj h2
      have h3 := congrArg Prod.fst h2'
      have h4 := congrArg Prod.snd h2'
      simp only at h3 h4
      subst h3
      subst h4
      exact ⟨index, rfl, rfl, hm, rfl, h1.symm⟩

theorem argmaxGo_replicate (k : ℕ) : ∀ i j : ℕ,
    argmaxGo i j 0 (List.replicate k 0) = if k = 0 then j else i + k - 1 := by
  induction k with
  | zero => intro i j; simp [argmaxGo]
  | succ k ih =>
    intro i j
    simp only [List.replicate_succ, argmaxGo, le_refl, if_pos]
    rw [ih]
    rcases Nat.eq_zero_or_pos k with h | h
    · simp [h]
    · rw [if_neg (by omega), if_neg (by omega)]
      omega

/-- Claim C9 (confirmed): the argmax selection of `compute_bpm` is
deterministic: `argmaxLast` returns an index holding the maximal value such
that every strictly later bin is strictly smaller (so among equal maxima the
highest-index bin — the longest period, hence the lowest bpm, as
`index_to_duration` is monotone — wins); an all-zero histogram yields the
last bin; and every successful `compute_bpm` derives its bpm from the
`argmaxLast` bin of the returned histogram. -/
theorem argmax_is_last_max :
    (∀ (l : List ℚ) (i : ℕ), argmaxLast l = some i →
      i < l.length ∧
      (∀ t, t < l.length → l.getD t 0 ≤ l.getD i 0) ∧
      (∀ t, t < l.length → i < t → l.getD t 0 < l.getD i 0)) ∧
    (∀ n : ℕ, argmaxLast (List.replicate (n + 1) 0) = some n) ∧
    (∀ (cfg : StaticBPMDetectionConfig) (i j : ℕ), i ≤ j →
      indexToDuration cfg i ≤ indexToDuration cfg j) ∧
    (∀ (L P : ℚ → ℚ) (s : BPMDetection) (d : DynamicBPMDetectionParameters)
      (s' : BPMDetection) (h : List ℚ) (B : ℚ),
      computeBpm L P s d = (s', some (h, B)) →
      ∃ index, argmaxLast h = some index ∧
        B = beatDurationToBpm (indexToDuration s.staticBpmDetectionParameters index)) := by
  refine ⟨?_, ?_, ?_, ?_⟩
  · intro l i hl
    rcases l with _ | ⟨x, xs⟩
    · simp [argmaxLast] at hl
    · simp only [argmaxLast, Option.some.injEq] at hl
      have := argmaxGo_spec xs [x] 0 x (by simp) (by simp) (by simp) (by simp)
      simp only [List.singleton_append, List.length_singleton, List.length_cons,
        List.length_nil, Nat.zero_add] at this ⊢
      rw [hl] at this
      exact this
  · intro n
    simp only [List.replicate_succ, argmaxLast, argmaxGo_replicate, Option.some.injEq]
    rcases Nat.eq_zero_or_pos n with h | h
    · simp [h]
    · rw [if_neg (by omega)]
      omega
  · intro cfg i j hij
    unfold indexToDuration
    have := sampleToDuration_mono cfg.sampleRate hij
    omega
  · intro L P s d s' h B hc
    obtain ⟨first, rest, index, _, _, hm, hB, _⟩ := computeBpm_some_inv L P s d s' h B hc
    exact ⟨index, hm, hB⟩

/-- Witness for claim C9 on the histogram `[1, 3, 3, 2]` (last maximal bin,
index 2) and the all-zero histogram of length 3. -/
theorem argmax_is_last_max_witness :
    (2 < ([1, 3, 3, 2] : List ℚ).length ∧
      (∀ t, t < ([1, 3, 3, 2] : List ℚ).length →
        ([1, 3, 3, 2] : List ℚ).getD t 0 ≤ ([1, 3, 3, 2] : List ℚ).getD 2 0) ∧
      (∀ t, t < ([1, 3, 3, 2] : List ℚ).length → 2 < t →
        ([1, 3, 3, 2] : List ℚ).getD t 0 < ([1, 3, 3, 2] : List ℚ).getD 2 0)) ∧
    argmaxLast (List.replicate 3 (0 : ℚ)) = some 2 :=
  ⟨argmax_is_last_max.1 [1, 3, 3, 2] 2 (by with_unfolding_all decide),
    argmax_is_last_max.2.1 2⟩

theorem pruneLoop_suffix (now maxAge : ℤ) : ∀ l : List TimedMidiNoteOn,
    ∃ k, pruneLoop now maxAge l = l.drop k ∧ k ≤ l.length ∧
      ∀ nt ∈ l.take k, maxAge < now - nt.timestamp := by
  intro l
  induction l with
  | nil => exact ⟨0, rfl, by simp, by simp⟩
  | cons n rest ih =>
    by_cases hn : maxAge < now - n.timestamp
    · obtain ⟨k, hk, hkl, hmem⟩ := ih
      refine ⟨k + 1, ?_, by simpa using hkl, ?_⟩
      · simpa [pruneLoop, hn] using hk
      · intro nt hnt
        simp only [List.take_succ_cons, List.mem_cons] at hnt
        rcases hnt with rfl | hnt
        · exact hn
        · exact hmem nt hnt
    · exact ⟨0, by simp [pruneLoop, hn], by simp, by simp⟩

theorem pruneLoop_sorted_bound (now maxAge : ℤ) : ∀ l : List TimedMidiNoteOn,
    l.Pairwise (fun a b => a.timestamp ≤ b.timestamp) →
    ∀ nt ∈ pruneLoop now maxAge l, now - nt.timestamp ≤ maxAge := by
  intro l
  induction l with
  | nil => intro _ nt hnt; simp [pruneLoop] at hnt
  | cons n rest ih =>
    intro hsort nt hnt
    rcases List.pairwise_cons.mp hsort with ⟨hhead, htail⟩
    by_cases hn : maxAge < now - n.timestamp
    · rw [pruneLoop, if_pos hn] at hnt
      exact ih htail nt hnt
    · rw [pruneLoop, if_neg hn] at hnt
      push_neg at hn
      rcases List.mem_cons.mp hnt with rfl | hnt
      · exact hn
      · have := hhead nt hnt
        omega

theorem pruneLoop_keeps_last (now maxAge : ℤ) (hA : 0 ≤ maxAge) :
    ∀ (l : List TimedMidiNoteOn) (last : TimedMidiNoteOn),
    l.getLast? = some last → now = last.timestamp →
    pruneLoop now maxAge l ≠ [] ∧ (pruneLoop now maxAge l).getLast? = l.getLast? := by
  intro l
  induction l with
  | nil => intro last hl; simp at hl
  | cons n rest ih =>
    intro last hl hnow
    rcases hrest : rest with _ | ⟨m, rest'⟩
    · subst hrest
      simp only [List.getLast?_singleton, Option.some.injEq] at hl
      subst hl
      have hn : ¬ maxAge < now - n.timestamp := by omega
      rw [pruneLoop, if_neg hn]
      exact ⟨by simp, rfl⟩
    · subst hrest
      have hl' : (m :: rest').getLast? = some last := by
        rwa [List.getLast?_cons_cons] at hl
      by_cases hn : maxAge < now - n.timestamp
      · rw [pruneLoop, if_pos hn]
        obtain ⟨h1, h2⟩ := ih last hl' hnow
        exact ⟨h1, by rw [h2, List.getLast?_cons_cons]⟩
      · rw [pruneLoop, if_neg hn]
        exact ⟨by simp, rfl⟩

theorem lastTimestamp_eq (l : List TimedMidiNoteOn) (a : TimedMidiNoteOn)
    (hne : l ≠ []) : (l.getLastD a).timestamp = lastTimestamp l := by
  rcases hx : l.getLast? with _ | x
  · exact absurd (List.getLast?_eq_none_iff.mp hx) hne
  · rw [List.getLastD_eq_getLast?, hx]
    simp [lastTimestamp, hx]

theorem beatDurationToBpm_nonneg {d : ℤ} (h : 0 ≤ d) : 0 ≤ beatDurationToBpm d := by
  unfold beatDurationToBpm
  have : (0 : ℚ) ≤ (d : ℚ) := by exact_mod_cast h
  positivity

theorem indexToDuration_nonneg (cfg : StaticBPMDetectionConfig) (index : ℕ) :
    0 ≤ indexToDuration cfg index := by
  unfold indexToDuration
  have h1 := sampleToDuration_nonneg cfg.sampleRate index
  have h2 := bpmToBeatDuration_nonneg (b := highestBpm cfg)
    (by linarith [highestBpm_ge_one cfg])
  omega

theorem horizon_nonneg (cfg : StaticBPMDetectionConfig) (index lookback : ℕ) :
    0 ≤ bpmToBeatDuration (beatDurationToBpm (indexToDuration cfg index)) *
      (lookback : ℤ) := by
  apply mul_nonneg
  · exact bpmToBeatDuration_nonneg
      (beatDurationToBpm_nonneg (indexToDuration_nonneg cfg index))
  · exact_mod_cast Nat.zero_le lookback

-- C3
/-- Claim C3 (confirmed): for every estimator state whose note window is in
chronological order (the documented input discipline), after a `compute_bpm`
call returns `Some((histogram, B))`, every note remaining in the window is
within `period(B) * beats_lookback` of the newest note's timestamp. -/
theorem compute_bpm_prune_horizon (L P : ℚ → ℚ) (s : BPMDetection)
    (d : DynamicBPMDetectionParameters) (s' : BPMDetection) (h : List ℚ) (B : ℚ)
    (hsort : s.notes.Pairwise (fun a b => a.timestamp ≤ b.timestamp))
    (hc : computeBpm L P s d = (s', some (h, B))) :
    ∀ nt ∈ s'.notes,
      lastTimestamp s.notes - nt.timestamp ≤
        bpmToBeatDuration B * (d.beatsLookback : ℤ) := by
  obtain ⟨first, rest, index, hn, hh, hm, hB, hs'⟩ := computeBpm_some_inv L P s d s' h B hc
  intro nt hnt
  rw [hs'] at hnt
  simp only at hnt
  have hlast : (s.notes.getLastD first).timestamp = lastTimestamp s.notes :=
    lastTimestamp_eq _ _ (by rw [hn]; simp)
  rw [hlast] at hnt
  exact pruneLoop_sorted_bound _ _ s.notes hsort nt hnt

-- C10
/-- Claim C10 (confirmed): the pruning phase of `compute_bpm` removes only a
prefix of notes strictly older than the horizon relative to the newest note;
the newest note is never removed (its `getLast?` is preserved), so whenever
`compute_bpm` returns `Some` the note window is non-empty afterwards. -/
theorem compute_bpm_prune_only_strictly_older (L P : ℚ → ℚ) (s : BPMDetection)
    (d : DynamicBPMDetectionParameters) (s' : BPMDetection) (h : List ℚ) (B : ℚ)
    (hc : computeBpm L P s d = (s', some (h, B))) :
    (∃ k, s'.notes = s.notes.drop k ∧
      ∀ nt ∈ s.notes.take k,
        bpmToBeatDuration B * (d.beatsLookback : ℤ) < lastTimestamp s.notes - nt.timestamp) ∧
    s'.notes ≠ [] ∧ s'.notes.getLast? = s.notes.getLast? := by
  obtain ⟨first, rest, index, hn, hh, hm, hB, hs'⟩ := computeBpm_some_inv L P s d s' h B hc
  have hA : 0 ≤ bpmToBeatDuration B * (d.beatsLookback : ℤ) := by
    rw [hB]
    exact horizon_nonneg s.staticBpmDetectionParameters index d.beatsLookback
  have hne : s.notes ≠ [] := by rw [hn]; simp
  have hlast : (s.notes.getLastD first).timestamp = lastTimestamp s.notes :=
    lastTimestamp_eq _ _ hne
  obtain ⟨x, hx⟩ : ∃ x, s.notes.getLast? = some x := by
    rcases hx : s.notes.getLast? with _ | x
    · exact absurd (List.getLast?_eq_none_iff.mp hx) hne
    · exact ⟨x, rfl⟩
  have hxts : (s.notes.getLastD first).timestamp = x.timestamp := by
    rw [List.getLastD_eq_getLast?, hx]
    rfl
  refine ⟨?_, ?_⟩
  · obtain ⟨k, hk, _, hmem⟩ := pruneLoop_suffix ((s.notes.getLastD first).timestamp)
      (bpmToBeatDuration B * (d.beatsLookback : ℤ)) s.notes
    refine ⟨k, ?_, ?_⟩
    · rw [hs']
      exact hk
    · intro nt hnt
      have := hmem nt hnt
      rw [hlast] at this
      exact this
  · obtain ⟨h1, h2⟩ := pruneLoop_keeps_last ((s.notes.getLastD first).timestamp)
      (bpmToBeatDuration B * (d.beatsLookback : ℤ)) hA s.notes x hx hxts
    constructor
    · rw [hs']
      exact h1
    · rw [hs']
      exact h2

-- C1 (amended)
/-- Claim C1 (amended): with ZERO buffered notes `compute_bpm` returns
`None` and leaves the note window unchanged, but the histogram is rewritten
in place to all zeros of the same length (not left untouched); with exactly
one buffered note and a non-empty histogram buffer the call returns `Some`
(see the counterexample), so the claim's "fewer than 2" bound is wrong on
both counts and is amended to "zero notes, histogram zeroed". -/
theorem compute_bpm_empty_notes (L P : ℚ → ℚ) (s : BPMDetection)
    (d : DynamicBPMDetectionParameters) (h0 : s.notes = []) :
    computeBpm L P s d =
      ({ s with histogramDataPoints := s.histogramDataPoints.map (fun _ => 0) }, none) ∧
    (computeBpm L P s d).1.notes = s.notes ∧
    (computeBpm L P s d).1.histogramDataPoints.length = s.histogramDataPoints.length := by
  have h1 : computeBpm L P s d =
      ({ s with histogramDataPoints := s.histogramDataPoints.map (fun _ => 0) }, none) := by
    simp only [computeBpm, h0]
  exact ⟨h1, by rw [h1], by rw [h1]; simp⟩

/-- Counterexample to claim C1 as stated: a state holding exactly one note
(fewer than 2) for which `compute_bpm` returns `Some`, and a zero-note state
whose histogram contents are changed (zeroed) by the call. -/
theorem compute_bpm_single_note_counterexample :
    exState1.notes.length = 1 ∧
    (computeBpm exL exP exState1 exDyn).2.isSome = true ∧
    exState0.notes.length = 0 ∧
    (computeBpm exL exP exState0 exDyn).1.histogramDataPoints ≠
      exState0.histogramDataPoints := by
  refine ⟨rfl, by with_unfolding_all decide, rfl, by with_unfolding_all decide⟩

/-- Witness for claim C1 (amended) at a concrete empty-window state. -/
theorem compute_bpm_empty_notes_witness :
    exState0.notes = [] ∧
    computeBpm exL exP exState0 exDyn =
      ({ exState0 with
          histogramDataPoints := exState0.histogramDataPoints.map (fun _ => 0) }, none) ∧
    (computeBpm exL exP exState0 exDyn).1.notes = exState0.notes ∧
    (computeBpm exL exP exState0 exDyn).1.histogramDataPoints.length =
      exState0.histogramDataPoints.length :=
  ⟨rfl, compute_bpm_empty_notes exL exP exState0 exDyn rfl⟩

/-- Witness for claim C3: two notes half a second apart (120 bpm); both
survive the prune and sit within the adaptive horizon. -/
theorem compute_bpm_prune_horizon_witness :
    exState2.notes.Pairwise (fun a b => a.timestamp ≤ b.timestamp) ∧
    ∀ nt ∈ ({ exState2 with histogramDataPoints := [1, 0] } : BPMDetection).notes,
      lastTimestamp exState2.notes - nt.timestamp ≤
        bpmToBeatDuration 120 * ((exDyn.beatsLookback : ℕ) : ℤ) :=
  ⟨by decide,
    compute_bpm_prune_horizon exL exP exState2 exDyn
      ({ exState2 with histogramDataPoints := [1, 0] }) [1, 0] 120
      (by decide) (by with_unfolding_all rfl)⟩

/-- Witness for claim C10 at the same two-note state. -/
theorem compute_bpm_prune_only_strictly_older_witness :
    (∃ k, ({ exState2 with histogramDataPoints := [1, 0] } : BPMDetection).notes =
        exState2.notes.drop k ∧
      ∀ nt ∈ exState2.notes.take k,
        bpmToBeatDuration 120 * ((exDyn.beatsLookback : ℕ) : ℤ) <
          lastTimestamp exState2.notes - nt.timestamp) ∧
    ({ exState2 with histogramDataPoints := [1, 0] } : BPMDetection).notes ≠ [] ∧
    ({ exState2 with histogramDataPoints := [1, 0] } : BPMDetection).notes.getLast? =
      exState2.notes.getLast? :=
  compute_bpm_prune_only_strictly_older exL exP exState2 exDyn
    ({ exState2 with histogramDataPoints := [1, 0] }) [1, 0] 120
    (by with_unfolding_all rfl)

theorem halveGo_tracker_some (hi : ℤ) : ∀ (fuel : ℕ) (i : ℤ) (v : ℚ),
    (halveGo hi fuel i (some v)).2.1 =
      some (v / 2 ^ (halveGo hi fuel i (some v)).2.2) := by
  intro fuel
  induction fuel with
  | zero =>
    intro i v
    simp only [halveGo]
    by_cases h : i / 2 < hi <;> simp [h, pow_one]
  | succ f ih =>
    intro i v
    simp only [halveGo]
    by_cases h : i / 2 < hi
    · simp [h, pow_one]
    · simp only [h, if_false]
      rw [ih (i / 2) (v / 2)]
      simp only [Option.some.injEq]
      rw [div_div, ← pow_succ']

theorem halveGo_tracker_none (hi : ℤ) (fuel : ℕ) (i : ℤ) :
    (halveGo hi fuel i none).2.1 =
      some (1 / 2 ^ ((halveGo hi fuel i none).2.2 - 1)) ∧
    1 ≤ (halveGo hi fuel i none).2.2 := by
  rcases fuel with _ | f
  · simp only [halveGo]
    by_cases h : i / 2 < hi <;> simp [h]
  · simp only [halveGo]
    by_cases h : i / 2 < hi
    · simp [h]
    · simp only [h, if_false]
      rw [halveGo_tracker_some hi f (i / 2) 1]
      simp

theorem halveGo_result_lt (hi : ℤ) (h1 : 1 ≤ hi) : ∀ (fuel : ℕ) (i : ℤ) (m : Option ℚ),
    i.toNat ≤ fuel + 1 → (halveGo hi fuel i m).1 < hi := by
  intro fuel
  induction fuel with
  | zero =>
    intro i m hf
    simp only [halveGo]
    by_cases h : i / 2 < hi
    · simp [h]
    · exfalso
      omega
  | succ f ih =>
    intro i m hf
    simp only [halveGo]
    by_cases h : i / 2 < hi
    · simp [h]
    · simp only [h, if_false]
      exact ih (i / 2) _ (by omega)

theorem doubleGo_result_pow (lo : ℤ) : ∀ (fuel : ℕ) (i : ℤ) (s : Option ℚ),
    (doubleGo lo fuel i s).1 = i * 2 ^ (doubleGo lo fuel i s).2.2 ∧
    (doubleGo lo fuel i s).2.2 ≤ fuel ∧
    (1 ≤ fuel → 1 ≤ (doubleGo lo fuel i s).2.2) := by
  intro fuel
  induction fuel with
  | zero => intro i s; simp [doubleGo]
  | succ f ih =>
    intro i s
    simp only [doubleGo]
    by_cases h : lo < i * 2
    · simp [h]
    · simp only [h, if_false]
      obtain ⟨ha, hb, _⟩ := ih (i * 2)
        (some (match s with | none => (1 : ℚ) | some v => v / 2))
      refine ⟨?_, by omega, by omega⟩
      rw [ha, pow_succ']
      ring

theorem doubleGo_tracker_some (lo : ℤ) : ∀ (fuel : ℕ) (i : ℤ) (v : ℚ),
    (doubleGo lo fuel i (some v)).2.1 =
      some (v / 2 ^ (doubleGo lo fuel i (some v)).2.2) := by
  intro fuel
  induction fuel with
  | zero => intro i v; simp [doubleGo]
  | succ f ih =>
    intro i v
    simp only [doubleGo]
    by_cases h : lo < i * 2
    · simp [h, pow_one]
    · simp only [h, if_false]
      rw [ih (i * 2) (v / 2)]
      simp only [Option.some.injEq]
      rw [div_div, ← pow_succ']

theorem doubleGo_tracker_none (lo : ℤ) (fuel : ℕ) (i : ℤ) (hf : 1 ≤ fuel) :
    (doubleGo lo fuel i none).2.1 =
      some (1 / 2 ^ ((doubleGo lo fuel i none).2.2 - 1)) := by
  rcases fuel with _ | f
  · omega
  · simp only [doubleGo]
    by_cases h : lo < i * 2
    · simp [h]
    · simp only [h, if_false]
      rw [doubleGo_tracker_some lo f (i * 2) 1]
      simp

-- C2 (amended)
/-- Claim C2 (amended): in the per-pair folding, an interval LONGER than
`period(lowest_bpm)` is repeatedly halved with NO step budget until it drops
below that period, its tracker (landing in the outer `subdivision` binding
through the tuple swap) set to 1 then halved each further step; an interval
shorter than `period(highest_bpm)` and itself > 1 ms is doubled at most 9
times (`for _ in 0..=8`), its tracker (landing in the outer `multiplier`)
reset to NaN if the result still falls short; at most one of
multiplier/subdivision is set and `in_range = 1` exactly when no folding
occurred.  The claim as stated attaches the > 1 ms guard and the step budget
to the halving branch and caps it at 8 steps — the code does neither (see
the counterexample). -/
theorem fold_follows_code (lo hi i : ℤ) (h1 : 1 ≤ hi) :
    ((foldInterval lo hi i).multiplier = none ∨ (foldInterval lo hi i).subdivision = none) ∧
    ((foldInterval lo hi i).inRange = some 1 ↔ ¬(hi < i) ∧ ¬(1000000 < i ∧ i < lo)) ∧
    (¬(hi < i) → ¬(1000000 < i ∧ i < lo) →
      foldInterval lo hi i = ⟨i, some 1, none, none⟩) ∧
    (hi < i →
      (foldInterval lo hi i).interval < hi ∧
      (foldInterval lo hi i).multiplier = none ∧
      1 ≤ (halveGo hi i.toNat i none).2.2 ∧
      (foldInterval lo hi i).subdivision =
        some (1 / 2 ^ ((halveGo hi i.toNat i none).2.2 - 1))) ∧
    (¬(hi < i) → 1000000 < i → i < lo →
      (foldInterval lo hi i).subdivision = none ∧
      1 ≤ (doubleGo lo 9 i none).2.2 ∧ (doubleGo lo 9 i none).2.2 ≤ 9 ∧
      (foldInterval lo hi i).interval = i * 2 ^ (doubleGo lo 9 i none).2.2 ∧
      (lo ≤ (foldInterval lo hi i).interval →
        (foldInterval lo hi i).multiplier =
          some (1 / 2 ^ ((doubleGo lo 9 i none).2.2 - 1))) ∧
      ((foldInterval lo hi i).interval < lo →
        (foldInterval lo hi i).multiplier = none)) := by
  by_cases hb1 : hi < i
  · have hfold : foldInterval lo hi i =
        { interval := (halveGo hi i.toNat i none).1, inRange := none,
          subdivision := (halveGo hi i.toNat i none).2.1, multiplier := none } := by
      simp [foldInterval, hb1]
    obtain ⟨htr, hcnt⟩ := halveGo_tracker_none hi i.toNat i
    refine ⟨Or.inl (by rw [hfold]), by rw [hfold]; simp [hb1], fun hx _ => absurd hb1 hx,
      fun _ => ⟨?_, by rw [hfold], hcnt, by rw [hfold]; exact htr⟩,
      fun hx _ _ => absurd hb1 hx⟩
    rw [hfold]
    exact halveGo_result_lt hi h1 i.toNat i none (by omega)
  · by_cases hb2 : 1000000 < i ∧ i < lo
    · have hfold : foldInterval lo hi i =
          { interval := (doubleGo lo 9 i none).1, inRange := none,
            subdivision := none,
            multiplier := if (doubleGo lo 9 i none).1 < lo then none
              else (doubleGo lo 9 i none).2.1 } := by
        simp [foldInterval, hb1, hb2]
      obtain ⟨hpow, hle9, hge1⟩ := doubleGo_result_pow lo 9 i none
      refine ⟨?_, by rw [hfold]; simp [hb1, hb2], fun _ hx => absurd hb2 hx,
        fun hx => absurd hx hb1,
        fun _ _ _ => ⟨by rw [hfold], hge1 (by omega), hle9, by rw [hfold]; exact hpow,
          ?_, ?_⟩⟩
      · rw [hfold]
        by_cases hlt : (doubleGo lo 9 i none).1 < lo
        · exact Or.inl (by simp [hlt])
        · exact Or.inr rfl
      · rw [hfold]
        intro hge
        simp only at hge
        rw [if_neg (by omega)]
        exact doubleGo_tracker_none lo 9 i (by omega)
      · rw [hfold]
        intro hlt
        simp only at hlt
        rw [if_pos hlt]
    · have hfold : foldInterval lo hi i =
          { interval := i, inRange := some 1, subdivision := none, multiplier := none } := by
        simp [foldInterval, hb1, hb2]
      refine ⟨Or.inl (by rw [hfold]), by rw [hfold]; simp [hb1, hb2],
        fun _ _ => hfold, fun hx => absurd hx hb1, fun _ hx1 hx2 => absurd ⟨hx1, hx2⟩ hb2⟩

set_option maxRecDepth 4000 in
/-- Counterexample to claim C2 as stated: a pair interval longer than
`period(lowest_bpm)` and > 1 ms (512 s against a 1 s period) is halved 10
times — more than the claimed 8-step budget — with tracker `1/2^9`. -/
theorem fold_budget_counterexample :
    (1000000 : ℤ) < 512000000000 ∧ (1000000000 : ℤ) < 512000000000 ∧
    (halveGo 1000000000 ((512000000000 : ℤ)).toNat 512000000000 none).2.2 = 10 ∧
    ¬((halveGo 1000000000 ((512000000000 : ℤ)).toNat 512000000000 none).2.2 ≤ 8) ∧
    (foldInterval 500000000 1000000000 512000000000).subdivision = some (1 / 2 ^ 9) := by
  refine ⟨by decide, by decide, by with_unfolding_all decide, by with_unfolding_all decide,
    by with_unfolding_all decide⟩

/-- Witness for claim C2 (amended) at an in-range interval (no folding). -/
theorem fold_follows_code_witness :
    (1 : ℤ) ≤ 1000000000 ∧
    foldInterval 500000000 1000000000 700000000 =
      ⟨700000000, some 1, none, none⟩ :=
  ⟨by decide,
    (fold_follows_code 500000000 1000000000 700000000 (by decide)).2.2.1
      (by decide) (by decide)⟩

theorem getD_range_map (f : ℕ → ℚ) (n j : ℕ) (h : j < n) :
    ((List.range n).map f).getD j 0 = f j := by
  simp [List.getD_eq_getElem?_getD, List.getElem?_range h]

-- C6 (amended)
/-- Claim C6 (amended): the Gaussian kernel lookup satisfies
`GaussianKernel[+d] = GaussianKernel[-d]` for every even pdf PROVIDED the
cutoff is an integer multiple `m` of the resolution and the offset `d` is a
grid multiple `k` of the resolution with `|k| <= m`; for general in-range
offsets the two quantized indices need not mirror and symmetry fails (see
the counterexample). -/
theorem kernel_symmetric_on_grid (pdf : ℚ → ℚ) (c : NormalDistributionConfig)
    (m : ℕ) (R : ℤ) (heven : ∀ x : ℚ, pdf (-x) = pdf x) (hR : 0 < R)
    (hres : c.resolution * 1000000 = (R : ℚ))
    (hcut : c.cutoff * 1000000 = (m : ℚ) * (R : ℚ))
    (k : ℤ) (hk : |k| ≤ (m : ℤ)) :
    ndLookup (NormalDistribution.ofConfig pdf c) (k * R) =
      ndLookup (NormalDistribution.ofConfig pdf c) (-(k * R)) := by
  have hRq : (0 : ℚ) < (R : ℚ) := by exact_mod_cast hR
  have hk1 : -(m : ℤ) ≤ k := (abs_le.mp hk).1
  have hk2 : k ≤ (m : ℤ) := (abs_le.mp hk).2
  have hsize : ndSize c = 2 * m + 1 := by
    rw [ndSize]
    have hc : c.cutoff = (m : ℚ) * (R : ℚ) / 1000000 := by
      rw [eq_div_iff (by norm_num)]
      exact hcut
    have hr : c.resolution = (R : ℚ) / 1000000 := by
      rw [eq_div_iff (by norm_num)]
      exact hres
    have : 2 * c.cutoff / c.resolution + 1 = ((2 * m + 1 : ℤ) : ℚ) := by
      rw [hc, hr]
      field_simp
      ring
    rw [this, Int.ceil_intCast]
    omega
  have hmain : ∀ j : ℤ, -(m : ℤ) ≤ j → j ≤ (m : ℤ) →
      ndLookup (NormalDistribution.ofConfig pdf c) (j * R) =
        pdf ((j : ℚ) * (R : ℚ) / 1000000) * c.factor := by
    intro j hj1 hj2
    have hidx : indexForDuration c (j * R) = (j + m).toNat := by
      rw [indexForDuration]
      have : (((j * R : ℤ) : ℚ) + c.cutoff * 1000000) / (c.resolution * 1000000) =
          ((j + (m : ℤ) : ℤ) : ℚ) := by
        rw [hcut, hres]
        push_cast
        field_simp
        ring
      rw [this, round_intCast]
    have hlt : (j + (m : ℤ)).toNat < 2 * m + 1 := by omega
    have hoff : durationForIndex c (j + (m : ℤ)).toNat = j * R := by
      rw [durationForIndex]
      have : (((j + (m : ℤ)).toNat : ℚ)) * c.resolution * 1000000 - c.cutoff * 1000000 =
          ((j * R : ℤ) : ℚ) := by
        have hcast : (((j + (m : ℤ)).toNat : ℚ)) = ((j + (m : ℤ) : ℤ) : ℚ) := by
          rw [show (((j + (m : ℤ)).toNat : ℚ)) = (((j + (m : ℤ)).toNat : ℤ) : ℚ) by push_cast; ring,
            Int.toNat_of_nonneg (by omega)]
        rw [hcast, mul_assoc, hres, hcut]
        push_cast
        ring
      rw [this, truncQ_intCast]
    rw [ndLookup, NormalDistribution.ofConfig, makeNormalDistribution]
    simp only
    rw [hidx, hsize]
    rw [getD_range_map _ _ _ hlt, hoff]
    push_cast
    ring_nf
  have hneg : -(k * R) = (-k) * R := by ring
  rw [hmain k hk1 hk2, hneg, hmain (-k) (by omega) (by omega)]
  have : ((-k : ℤ) : ℚ) * (R : ℚ) / 1000000 = -(((k : ℤ) : ℚ) * (R : ℚ) / 1000000) := by
    push_cast
    ring
  rw [this, heven]

/-- Counterexample to claim C6 as stated: with cutoff 1.5 ms and resolution
1 ms, the in-range offset d = +1 ms quantizes to table offset +1.5 ms while
-1 ms quantizes to -0.5 ms, so for the even, injective-on-nonnegatives pdf
`1/(1+x^2)` (sharing the true Gaussian's strict decay in `|x|`) the two
lookups differ. -/
theorem kernel_symmetry_counterexample :
    (∀ x : ℚ, c6pdf (-x) = c6pdf x) ∧
    ((1000000 : ℤ) : ℚ) ≤ c6cfg.cutoff * 1000000 ∧
    ndLookup (NormalDistribution.ofConfig c6pdf c6cfg) 1000000 ≠
      ndLookup (NormalDistribution.ofConfig c6pdf c6cfg) (-1000000) := by
  refine ⟨fun x => by simp only [c6pdf, neg_sq], by norm_num [c6cfg],
    by with_unfolding_all decide⟩

/-- Witness for claim C6 (amended): cutoff 2 ms, resolution 1 ms, offset
`+-1` ms, pdf `x^2`. -/
theorem kernel_symmetric_on_grid_witness :
    (∀ x : ℚ, (fun y : ℚ => y ^ 2) (-x) = (fun y : ℚ => y ^ 2) x) ∧
    (0 : ℤ) < 1000000 ∧
    ((⟨24, 1, 2, 1⟩ : NormalDistributionConfig).resolution * 1000000 =
      ((1000000 : ℤ) : ℚ)) ∧
    ((⟨24, 1, 2, 1⟩ : NormalDistributionConfig).cutoff * 1000000 =
      ((2 : ℕ) : ℚ) * ((1000000 : ℤ) : ℚ)) ∧
    ndLookup (NormalDistribution.ofConfig (fun y : ℚ => y ^ 2) ⟨24, 1, 2, 1⟩)
        (1 * 1000000) =
      ndLookup (NormalDistribution.ofConfig (fun y : ℚ => y ^ 2) ⟨24, 1, 2, 1⟩)
        (-(1 * 1000000)) :=
  ⟨fun x => by simp only [neg_sq], by decide, by norm_num, by norm_num,
    kernel_symmetric_on_grid (fun y : ℚ => y ^ 2) ⟨24, 1, 2, 1⟩ 2 1000000
      (fun x => by simp only [neg_sq]) (by decide) (by norm_num) (by norm_num) 1
      (by decide)⟩

end MidiBpm
